import Mathlib

/-!
Verification of the Z-DMR UI shell (React/TypeScript front end of the Z-DMR
download manager) against its natural-language specification.

The definitions below are a shallow embedding of the data model in
`src/types.ts` and of the pure computations performed by the UI component in
the main application source file (`App.tsx`): URL-list parsing, progress-map
maintenance, per-row progress/status derivation, the per-status counters and
the settings editor's bandwidth field.  JavaScript numbers used as byte
counts are modelled as `Int`; the one real division (the progress fraction)
is carried out in `ℚ`.  Nullable values are `Option`s; a `try/catch` around
the platform URL parser is modelled by letting the parser return an
`Option`.
-/

namespace ZDMR

/-! ## Data model (from `src/types.ts`) -/

/-- `DownloadStatus` from `src/types.ts` line 1: exactly five string values. -/
inductive DownloadStatus
  | QUEUED
  | DOWNLOADING
  | PAUSED
  | COMPLETED
  | ERROR
deriving DecidableEq, Repr

/-- The literal string value of a `DownloadStatus` (the TS type is a union of
string literals). -/
def DownloadStatus.text : DownloadStatus → String
  | .QUEUED => "QUEUED"
  | .DOWNLOADING => "DOWNLOADING"
  | .PAUSED => "PAUSED"
  | .COMPLETED => "COMPLETED"
  | .ERROR => "ERROR"

/-- `ErrorCode` from `src/types.ts` lines 3-16: a union of string literals. -/
inductive ErrorCode
  | DNS_FAIL
  | CONNECT_FAIL
  | TLS_FAIL
  | HTTP_4XX
  | HTTP_5XX
  | TIMEOUT
  | RANGE_UNSUPPORTED
  | DISK_FULL
  | REMOTE_CHANGED
  | PERMISSION_DENIED
  | CANCELLED
  | INVALID_URL
  | UNKNOWN
deriving DecidableEq, Repr

/-- The literal string value of an `ErrorCode`. -/
def ErrorCode.code : ErrorCode → String
  | .DNS_FAIL => "DNS_FAIL"
  | .CONNECT_FAIL => "CONNECT_FAIL"
  | .TLS_FAIL => "TLS_FAIL"
  | .HTTP_4XX => "HTTP_4XX"
  | .HTTP_5XX => "HTTP_5XX"
  | .TIMEOUT => "TIMEOUT"
  | .RANGE_UNSUPPORTED => "RANGE_UNSUPPORTED"
  | .DISK_FULL => "DISK_FULL"
  | .REMOTE_CHANGED => "REMOTE_CHANGED"
  | .PERMISSION_DENIED => "PERMISSION_DENIED"
  | .CANCELLED => "CANCELLED"
  | .INVALID_URL => "INVALID_URL"
  | .UNKNOWN => "UNKNOWN"

/-- All thirteen constructors of `ErrorCode`, in declaration order. -/
def allErrorCodes : List ErrorCode :=
  [.DNS_FAIL, .CONNECT_FAIL, .TLS_FAIL, .HTTP_4XX, .HTTP_5XX, .TIMEOUT,
   .RANGE_UNSUPPORTED, .DISK_FULL, .REMOTE_CHANGED, .PERMISSION_DENIED,
   .CANCELLED, .INVALID_URL, .UNKNOWN]

/-- The string values inhabiting the `ErrorCode` union type. -/
def errorCodeStrings : List String := allErrorCodes.map ErrorCode.code

/-- `DownloadRecord` from `src/types.ts` lines 18-41. -/
structure DownloadRecord where
  id : String
  created_at : String
  updated_at : String
  started_at : Option String
  completed_at : Option String
  forced_proxy : Bool
  forced_proxy_url : Option String
  original_url : String
  resolved_url : Option String
  dest_dir : String
  final_filename : Option String
  temp_path : Option String
  status : DownloadStatus
  error_code : Option ErrorCode
  error_message : Option String
  content_length : Option Int
  etag : Option String
  last_modified : Option String
  bytes_downloaded : Int
  supports_ranges : Option Bool
  mirror_used : Option String
  batch_id : Option String
deriving DecidableEq

/-- `DownloadProgressUpdate` from `src/types.ts` lines 43-53. -/
structure DownloadProgressUpdate where
  id : String
  status : DownloadStatus
  bytes_downloaded : Int
  content_length : Option Int
  speed_bps : Int
  eta_seconds : Option Int
  error_code : Option ErrorCode
  error_message : Option String
  updated_at : String
deriving DecidableEq

/-- The `theme` union type of `SettingsSnapshot` in `src/types.ts` line 59. -/
inductive Theme
  | dark
  | mirage
  | light
deriving DecidableEq, Repr

/-- `SettingsSnapshot` from `src/types.ts` lines 55-63, field for field. -/
structure SettingsSnapshot where
  default_download_dir : String
  bandwidth_limit_bps : Option Int
  minimize_to_tray : Bool
  theme : Theme
  global_proxy_enabled : Bool
  global_proxy_url : Option String
  local_api_port : Int

/-- The declared field names of `SettingsSnapshot` (`src/types.ts` lines
55-63), transcribed in declaration order. -/
def settingsSnapshotFields : List String :=
  ["default_download_dir", "bandwidth_limit_bps", "minimize_to_tray",
   "theme", "global_proxy_enabled", "global_proxy_url", "local_api_port"]

/-- The settings fields the settings modal reads and writes on the snapshot
value `s` it edits (the `SettingsModal` component: accesses
`s.default_download_dir`, `s.bandwidth_limit_bps`, `s.minimize_to_tray`,
`s.theme`, `s.skin`, `s.global_hotkey`, `s.global_proxy_enabled`,
`s.global_proxy_url`). -/
def settingsModalFields : List String :=
  ["default_download_dir", "bandwidth_limit_bps", "minimize_to_tray",
   "theme", "skin", "global_hotkey", "global_proxy_enabled",
   "global_proxy_url"]

/-- Modelled from the spec: the field names the spec's Settings entity
("singleton record: default download directory, global bandwidth limit in
bytes/s, global proxy (enabled + URL), tray preference, theme/skin, global
hotkey, local API port, local API token") requires of the record exposed to
the UI, in the snake-case naming scheme of `src/types.ts`. -/
def specSettingsFields : List String :=
  ["default_download_dir", "bandwidth_limit_bps", "global_proxy_enabled",
   "global_proxy_url", "minimize_to_tray", "theme", "skin", "global_hotkey",
   "local_api_port", "local_api_token"]

/-! ## URL-list parsing (`parseUrlsFromText` in the application source) -/

/-- The result of the platform URL parser as the UI consumes it: the
`protocol` property (scheme plus `:`) and the serialization `toString()`
(the `href`). -/
structure JsUrl where
  protocol : String
  href : String
deriving DecidableEq, Repr

/-- Split a character sequence into its maximal runs of non-whitespace
characters, accumulating the current (reversed) run in `cur`. -/
def tokenizeWsAux (cur : List Char) : List Char → List (List Char)
  | [] => if cur.isEmpty then [] else [cur.reverse]
  | c :: cs =>
      if c.isWhitespace then
        if cur.isEmpty then tokenizeWsAux [] cs
        else cur.reverse :: tokenizeWsAux [] cs
      else tokenizeWsAux (c :: cur) cs

/-- Whitespace tokenisation of the input text: `text.split(/\s+/)` followed
by `.map((s) => s.trim()).filter(Boolean)`.  Splitting on runs of
whitespace, trimming and dropping empty pieces yields exactly the maximal
non-whitespace runs of the text, which is how it is embedded here. -/
def urlTokens (text : String) : List String :=
  (tokenizeWsAux [] text.toList).map (fun cs => String.mk cs)

/-- One iteration of the accumulation loop of `parseUrlsFromText`: parse the
token (a throw is `none`), push `u.toString()` when the protocol is `http:`
or `https:`, otherwise push nothing. -/
def keepHttpUrl (urlParse : String → Option JsUrl) (p : String) :
    Option String :=
  match urlParse p with
  | some u =>
      if u.protocol = "http:" ∨ u.protocol = "https:" then some u.href
      else none
  | none => none

/-- The `out` array of `parseUrlsFromText` before deduplication. -/
def rawUrls (urlParse : String → Option JsUrl) (text : String) :
    List String :=
  (urlTokens text).filterMap (keepHttpUrl urlParse)

/-- Order-preserving first-occurrence deduplication, with the set of already
seen elements accumulated: `Array.from(new Set(out))`. -/
def dedupFirstAux (seen : List String) : List String → List String
  | [] => []
  | x :: xs =>
      if x ∈ seen then dedupFirstAux seen xs
      else x :: dedupFirstAux (x :: seen) xs

/-- `Array.from(new Set(out))`: keep the first occurrence of each element,
in order. -/
def dedupFirst (l : List String) : List String := dedupFirstAux [] l

/-- `parseUrlsFromText` from the application source, parameterised by the
platform URL parser (`new URL`, modelled as returning `none` where the
constructor would throw). -/
def parseUrlsFromText (urlParse : String → Option JsUrl) (text : String) :
    List String :=
  dedupFirst (rawUrls urlParse text)

/-- Modelled from the spec: a minimal stand-in for the platform `new URL`
builtin (which is not part of this repository), used only to evaluate the
parser on concrete inputs.  A token beginning with `http://`, `https://` or
`ftp://` followed by a nonempty remainder parses to a URL with that protocol
and an unchanged serialization; anything else fails to parse. -/
def urlParseModel (s : String) : Option JsUrl :=
  if "http://".toList.isPrefixOf s.toList ∧ s.toList.length > 7 then
    some ⟨"http:", s⟩
  else if "https://".toList.isPrefixOf s.toList ∧ s.toList.length > 8 then
    some ⟨"https:", s⟩
  else if "ftp://".toList.isPrefixOf s.toList ∧ s.toList.length > 6 then
    some ⟨"ftp:", s⟩
  else none

/-! ## Event subscriptions and progress-map maintenance -/

/-- Event channel constant from the application source. -/
def EVENT_PROGRESS_BATCH : String := "zdmr://progress_batch"

/-- Event channel constant from the application source. -/
def EVENT_DOWNLOADS_CHANGED : String := "zdmr://downloads_changed"

/-- The channels the `App` component passes to `listen` in its mount effect,
in subscription order; these are the only two `listen` calls in the UI. -/
def subscribedEvents : List String :=
  [EVENT_PROGRESS_BATCH, EVENT_DOWNLOADS_CHANGED]

/-- The `progressById` record: a JavaScript object keyed by download id,
modelled as a partial map. -/
abbrev ProgressMap : Type := String → Option DownloadProgressUpdate

/-- The UI state the two event handlers touch: the download list and the
per-download progress map. -/
structure UiState where
  downloads : List DownloadRecord
  progressById : ProgressMap

/-- `next[u.id] = u`: one iteration of the merge loop of the
`ProgressBatch` handler. -/
def applyBatchUpdate (m : ProgressMap) (u : DownloadProgressUpdate) :
    ProgressMap :=
  fun k => if k = u.id then some u else m k

/-- The `ProgressBatch` listener: an empty payload returns early; otherwise
the batch is merged into `progressById`, later entries for the same id
overwriting earlier ones. -/
def handleProgressBatch (batch : List DownloadProgressUpdate)
    (st : UiState) : UiState :=
  if batch.length = 0 then st
  else { st with progressById := batch.foldl applyBatchUpdate st.progressById }

/-- The pruning step of `refreshDownloads`: keep a progress entry only when
its id belongs to a download in the freshly fetched list whose status is
`DOWNLOADING` or `QUEUED`. -/
def pruneProgress (list : List DownloadRecord) (prev : ProgressMap) :
    ProgressMap :=
  let active :=
    (list.filter fun d =>
      d.status = DownloadStatus.DOWNLOADING ∨
      d.status = DownloadStatus.QUEUED).map (fun d => d.id)
  fun id => if id ∈ active then prev id else none

/-- `refreshDownloads` (as run by the `DownloadsChanged` listener): store the
fetched list and prune the progress map against it. -/
def refreshDownloadsState (store : List DownloadRecord) (st : UiState) :
    UiState :=
  { downloads := store, progressById := pruneProgress store st.progressById }

/-- The last progress update for `id` in a batch: the value the merge loop
leaves in the map for that key. -/
def lastUpdateFor (batch : List DownloadProgressUpdate) (id : String) :
    Option DownloadProgressUpdate :=
  (batch.filter fun u => u.id = id).getLast?

/-! ## Row derivation (`rows`, row rendering) -/

/-- `p?.bytes_downloaded ?? d.bytes_downloaded`. -/
def rowBytes (d : DownloadRecord) (p : Option DownloadProgressUpdate) :
    Int :=
  (p.map fun u => u.bytes_downloaded).getD d.bytes_downloaded

/-- `p?.content_length ?? d.content_length ?? undefined` (`??` skips both a
missing `p` and a null `p.content_length`). -/
def rowTotal (d : DownloadRecord) (p : Option DownloadProgressUpdate) :
    Option Int :=
  match p.bind fun u => u.content_length with
  | some t => some t
  | none => d.content_length

/-- `total && total > 0 ? Math.min(1, Math.max(0, bytes / total)) : 0`.
A missing, zero or negative total gives `0`; otherwise the byte ratio is
clamped into `[0, 1]`.  The JavaScript float division is modelled in `ℚ`. -/
def pctOf (bytes : Int) (total : Option Int) : ℚ :=
  match total with
  | some t => if 0 < t then min 1 (max 0 ((bytes : ℚ) / (t : ℚ))) else 0
  | none => 0

/-- The `pct` field of a row. -/
def rowPct (d : DownloadRecord) (p : Option DownloadProgressUpdate) : ℚ :=
  pctOf (rowBytes d p) (rowTotal d p)

/-- `Math.max(0, Math.min(100, pct * 100))`: the progress-bar width. -/
def pct100 (pct : ℚ) : ℚ := max 0 (min 100 (pct * 100))

/-- `p?.status ?? d.status`: the status a row displays. -/
def rowStatus (d : DownloadRecord) (p : Option DownloadProgressUpdate) :
    DownloadStatus :=
  (p.map fun u => u.status).getD d.status

/-- `p?.error_message ?? d.error_message`. -/
def rowErr (d : DownloadRecord) (p : Option DownloadProgressUpdate) :
    Option String :=
  match p.bind fun u => u.error_message with
  | some m => some m
  | none => d.error_message

/-- The status cell text: `status === 'ERROR' ? err ?? 'Error' : status`. -/
def statusCellText (status : DownloadStatus) (err : Option String) :
    String :=
  if status = DownloadStatus.ERROR then err.getD "Error" else status.text

/-! ## Status-bar summary (`statusSummary`) -/

/-- The `counts` object of `statusSummary`, one counter per status. -/
structure StatusCounts where
  queued : Nat
  downloading : Nat
  paused : Nat
  completed : Nat
  error : Nat
deriving DecidableEq, Repr

/-- `counts[d.status]++`. -/
def bumpCount (c : StatusCounts) : DownloadStatus → StatusCounts
  | .QUEUED => { c with queued := c.queued + 1 }
  | .DOWNLOADING => { c with downloading := c.downloading + 1 }
  | .PAUSED => { c with paused := c.paused + 1 }
  | .COMPLETED => { c with completed := c.completed + 1 }
  | .ERROR => { c with error := c.error + 1 }

/-- The sum of the five counters. -/
def StatusCounts.total (c : StatusCounts) : Nat :=
  c.queued + c.downloading + c.paused + c.completed + c.error

/-- `statusSummary`: fold the download list accumulating the per-status
counts, and the total speed over entries of the progress map in state
`DOWNLOADING`. -/
def statusSummary (downloads : List DownloadRecord)
    (progressById : ProgressMap) : StatusCounts × Int :=
  let counts := downloads.foldl (fun c d => bumpCount c d.status)
    ⟨0, 0, 0, 0, 0⟩
  let totalBps := downloads.foldl (fun acc d =>
    match progressById d.id with
    | some p =>
        if p.status = DownloadStatus.DOWNLOADING then acc + p.speed_bps
        else acc
    | none => acc) 0
  (counts, totalBps)

/-! ## Context menu Pause/Resume dispatch -/

/-- The two commands the Pause/Resume button can invoke. -/
inductive MenuCommand
  | resumeDownload
  | pauseDownload
deriving DecidableEq, Repr

/-- `status === 'PAUSED' ? cmd_resume_download : cmd_pause_download`, on the
status string stashed in the menu's dataset by `showContextMenu`. -/
def pauseResumeCommand (status : String) : MenuCommand :=
  if status = "PAUSED" then .resumeDownload else .pauseDownload

/-- Modelled from the spec: the status transition of the `pause` endpoint
(not part of the UI sources).  Pause cancels in-flight work of an active
download and sets status to `PAUSED`; state-mutating endpoints are
idempotent with respect to the download, so pausing anything else leaves it
unchanged. -/
def specPause (s : DownloadStatus) : DownloadStatus :=
  if s = .DOWNLOADING ∨ s = .QUEUED then .PAUSED else s

/-- Modelled from the spec: the status transition of the `resume` endpoint
(not part of the UI sources).  Resume re-enters the fetch path for a paused
download (re-admitted through the queue); on any other status it is a
no-op by endpoint idempotence. -/
def specResume (s : DownloadStatus) : DownloadStatus :=
  if s = .PAUSED then .QUEUED else s

/-- The effect of one Pause/Resume menu command on the download's status,
with the endpoints modelled from the spec. -/
def applyMenuCommand : MenuCommand → DownloadStatus → DownloadStatus
  | .resumeDownload, s => specResume s
  | .pauseDownload, s => specPause s

/-! ## Settings editor: bandwidth field -/

/-- JavaScript `s || d` for strings: the empty string is falsy. -/
def jsOrString (s d : String) : String := if s = "" then d else s

/-- Decimal digit prefix of a character list. -/
def digitsPrefix : List Char → List Char
  | [] => []
  | c :: cs => if c.isDigit then c :: digitsPrefix cs else []

/-- Value of a list of decimal digits. -/
def digitsToNat (ds : List Char) : Nat :=
  ds.foldl (fun acc c => acc * 10 + (c.toNat - 48)) 0

/-- `parseInt(s, 10)`: skip leading whitespace, read an optional sign and
then the longest decimal-digit prefix; no digits means `NaN`, modelled as
`none`. -/
def jsParseInt (s : String) : Option Int :=
  let cs := s.toList.dropWhile (fun c => c.isWhitespace)
  match cs with
  | '-' :: t =>
      let ds := digitsPrefix t
      if ds.isEmpty then none else some (-(digitsToNat ds : Int))
  | '+' :: t =>
      let ds := digitsPrefix t
      if ds.isEmpty then none else some (digitsToNat ds : Int)
  | t =>
      let ds := digitsPrefix t
      if ds.isEmpty then none else some (digitsToNat ds : Int)

/-- `kb > 0 ? kb * 1024 : null` (a `NaN` comparison is false, so an
unparsable entry also stores `null`; that case is handled by the caller). -/
def storeBandwidthFromKb (kb : Int) : Option Int :=
  if 0 < kb then some (kb * 1024) else none

/-- The `onChange` handler of the bandwidth field:
`parseInt(e.target.value || '0', 10)` then `kb > 0 ? kb * 1024 : null`. -/
def storeBandwidth (entry : String) : Option Int :=
  match jsParseInt (jsOrString entry "0") with
  | some kb => storeBandwidthFromKb kb
  | none => none

/-- The displayed value of the bandwidth field:
`Math.floor((s.bandwidth_limit_bps ?? 0) / 1024)` (floor division). -/
def displayBandwidth (bps : Option Int) : Int := Int.fdiv (bps.getD 0) 1024

/-! ## Concrete sample values (used to evaluate the definitions) -/

/-- A stale `DOWNLOADING` progress update for download `"a"`. -/
def exampleUpdate : DownloadProgressUpdate :=
  { id := "a", status := .DOWNLOADING, bytes_downloaded := 10,
    content_length := some 100, speed_bps := 5, eta_seconds := none,
    error_code := none, error_message := none, updated_at := "t1" }

/-- A download record that has completed. -/
def exampleCompleted : DownloadRecord :=
  { id := "a", created_at := "t0", updated_at := "t2",
    started_at := some "t0", completed_at := some "t2",
    forced_proxy := false, forced_proxy_url := none,
    original_url := "http://x/f", resolved_url := none, dest_dir := "/d",
    final_filename := some "f", temp_path := none, status := .COMPLETED,
    error_code := none, error_message := none, content_length := some 100,
    etag := none, last_modified := none, bytes_downloaded := 100,
    supports_ranges := some true, mirror_used := none, batch_id := none }

/-- A progress map still holding the stale update for `"a"`. -/
def exampleStaleMap : ProgressMap :=
  fun id => if id = "a" then some exampleUpdate else none

/-! ## Theorems -/

/-- C3: the error-code type consists of exactly the thirteen stable strings
of the taxonomy, no more and no fewer, and the status cell of an erroring
row surfaces the message verbatim from the record. -/
theorem errorCode_taxonomy_exact :
    errorCodeStrings =
      ["DNS_FAIL", "CONNECT_FAIL", "TLS_FAIL", "HTTP_4XX", "HTTP_5XX",
       "TIMEOUT", "RANGE_UNSUPPORTED", "DISK_FULL", "REMOTE_CHANGED",
       "PERMISSION_DENIED", "CANCELLED", "INVALID_URL", "UNKNOWN"] ∧
    errorCodeStrings.Nodup ∧
    (∀ c : ErrorCode, c ∈ allErrorCodes) ∧
    (∀ m : String, statusCellText DownloadStatus.ERROR (some m) = m) := by
  refine ⟨by decide, by decide, ?_, ?_⟩
  · intro c
    cases c <;> simp [allErrorCodes]
  · intro m
    simp [statusCellText]

/-- C2 counterexample: the spec's Settings field list requires a local API
token field, but the `SettingsSnapshot` record exposed to the UI declares no
such field and the settings modal never touches one. -/
theorem settings_missing_token :
    specSettingsFields.contains "local_api_token" = true ∧
    settingsSnapshotFields.contains "local_api_token" = false ∧
    settingsModalFields.contains "local_api_token" = false := by
  decide

/-- C2 (amended): the declared `SettingsSnapshot` type carries exactly the
default-directory, bandwidth-limit, tray, theme, proxy-enabled, proxy-URL
and API-port fields; the skin and global-hotkey fields are read and written
by the settings modal but are not declared on the type, and no local API
token field is exposed to the UI at all. -/
theorem settings_fields_amended :
    (["default_download_dir", "bandwidth_limit_bps", "minimize_to_tray",
      "theme", "global_proxy_enabled", "global_proxy_url",
      "local_api_port"].all
        (fun f => settingsSnapshotFields.contains f) = true) ∧
    settingsSnapshotFields.length = 7 ∧
    settingsSnapshotFields.contains "skin" = false ∧
    settingsSnapshotFields.contains "global_hotkey" = false ∧
    settingsSnapshotFields.contains "local_api_token" = false ∧
    settingsModalFields.contains "skin" = true ∧
    settingsModalFields.contains "global_hotkey" = true := by
  decide

/-- Bumping the counter for one status increases the total by one. -/
theorem bumpCount_total (c : StatusCounts) (s : DownloadStatus) :
    (bumpCount c s).total = c.total + 1 := by
  cases s <;> simp [bumpCount, StatusCounts.total] <;> omega

/-- Folding the counter bump over a list adds the list's length. -/
theorem foldl_bumpCount_total (l : List DownloadRecord) :
    ∀ c : StatusCounts,
      (l.foldl (fun c d => bumpCount c d.status) c).total =
        c.total + l.length := by
  induction l with
  | nil => intro c; simp
  | cons d ds ih =>
      intro c
      rw [List.foldl_cons, ih, bumpCount_total]
      simp [Nat.add_comm, Nat.add_assoc, Nat.add_left_comm]

/-- C6: a download's status is one of exactly five values, and the
status-bar counters always sum to the number of downloads. -/
theorem statusSummary_partition :
    (∀ s : DownloadStatus,
      s = DownloadStatus.QUEUED ∨ s = DownloadStatus.DOWNLOADING ∨
      s = DownloadStatus.PAUSED ∨ s = DownloadStatus.COMPLETED ∨
      s = DownloadStatus.ERROR) ∧
    (∀ (downloads : List DownloadRecord) (m : ProgressMap),
      ((statusSummary downloads m).1).total = downloads.length) := by
  constructor
  · intro s
    cases s <;> simp
  · intro downloads m
    have h := foldl_bumpCount_total downloads ⟨0, 0, 0, 0, 0⟩
    simpa [statusSummary, StatusCounts.total] using h

/-- C7: the bandwidth field stores `1024·k` for a positive entry `k`, stores
`null` for a zero, negative or unparsable entry, and redisplaying a stored
value floor-divides by 1024, so the display round-trips every non-negative
entry; the stored limit is `null` exactly when the entry asked for
unlimited. -/
theorem bandwidth_roundtrip :
    (∀ (s : String) (k : Int),
      jsParseInt (jsOrString s "0") = some k → 0 < k →
      storeBandwidth s = some (k * 1024)) ∧
    (∀ (s : String) (k : Int),
      jsParseInt (jsOrString s "0") = some k → k ≤ 0 →
      storeBandwidth s = none) ∧
    (∀ s : String,
      jsParseInt (jsOrString s "0") = none → storeBandwidth s = none) ∧
    (∀ k : Int, 0 ≤ k → displayBandwidth (storeBandwidthFromKb k) = k) ∧
    displayBandwidth none = 0 ∧
    (∀ k : Int, storeBandwidthFromKb k = none ↔ k ≤ 0) := by
  refine ⟨?_, ?_, ?_, ?_, by decide, ?_⟩
  · intro s k h hk
    simp [storeBandwidth, h, storeBandwidthFromKb, hk]
  · intro s k h hk
    simp [storeBandwidth, h, storeBandwidthFromKb, not_lt.mpr hk]
  · intro s h
    simp [storeBandwidth, h]
  · intro k hk
    rcases lt_or_eq_of_le hk with hpos | hzero
    · simp only [storeBandwidthFromKb, if_pos hpos, displayBandwidth,
        Option.getD_some]
      exact Int.mul_fdiv_cancel k (by norm_num)
    · simp [storeBandwidthFromKb, ← hzero, displayBandwidth]
  · intro k
    by_cases hk : 0 < k
    · simp [storeBandwidthFromKb, hk, not_le.mpr hk]
    · simp [storeBandwidthFromKb, hk, not_lt.mp hk]

/-- C7 witness: the entry `5` stores `5120` bytes/s, the entries `0` and
`zzz` store `null`, and redisplaying the stored value of `5` gives `5`. -/
theorem bandwidth_roundtrip_witness :
    (jsParseInt (jsOrString "5" "0") = some 5 ∧ (0 : Int) < 5 ∧
      storeBandwidth "5" = some (5 * 1024)) ∧
    (jsParseInt (jsOrString "0" "0") = some 0 ∧ (0 : Int) ≤ 0 ∧
      storeBandwidth "0" = none) ∧
    (jsParseInt (jsOrString "zzz" "0") = none ∧
      storeBandwidth "zzz" = none) ∧
    ((0 : Int) ≤ 5 ∧ displayBandwidth (storeBandwidthFromKb 5) = 5) :=
  ⟨⟨by decide, by decide,
      bandwidth_roundtrip.1 "5" 5 (by decide) (by decide)⟩,
   ⟨by decide, by decide,
      bandwidth_roundtrip.2.1 "0" 0 (by decide) (by decide)⟩,
   ⟨by decide, bandwidth_roundtrip.2.2.1 "zzz" (by decide)⟩,
   ⟨by decide, bandwidth_roundtrip.2.2.2.1 5 (by decide)⟩⟩

/-- C8: the Pause/Resume menu entry dispatches the resume command if and
only if the status stashed in the menu is `PAUSED` (equivalently, the row's
displayed status is `PAUSED`), and dispatches pause otherwise; with the
endpoint transitions modelled from the spec, repeating the same command is
a no-op. -/
theorem pauseResume_dispatch :
    (∀ status : String,
      pauseResumeCommand status = MenuCommand.resumeDownload ↔
        status = "PAUSED") ∧
    (∀ (d : DownloadRecord) (p : Option DownloadProgressUpdate),
      pauseResumeCommand ((rowStatus d p).text) =
          MenuCommand.resumeDownload ↔
        rowStatus d p = DownloadStatus.PAUSED) ∧
    (∀ (c : MenuCommand) (s : DownloadStatus),
      applyMenuCommand c (applyMenuCommand c s) = applyMenuCommand c s) := by
  refine ⟨?_, ?_, ?_⟩
  · intro status
    by_cases h : status = "PAUSED" <;> simp [pauseResumeCommand, h]
  · intro d p
    cases hs : rowStatus d p <;>
      simp [pauseResumeCommand, DownloadStatus.text]
  · intro c s
    cases c <;> cases s <;> decide

/-- C8 witness: a `PAUSED` row dispatches resume, a `DOWNLOADING` row
dispatches pause, and repeating the pause command on a downloading download
changes nothing the second time. -/
theorem pauseResume_dispatch_witness :
    pauseResumeCommand "PAUSED" = MenuCommand.resumeDownload ∧
    applyMenuCommand MenuCommand.pauseDownload
        (applyMenuCommand MenuCommand.pauseDownload
          DownloadStatus.DOWNLOADING) =
      applyMenuCommand MenuCommand.pauseDownload
        DownloadStatus.DOWNLOADING :=
  ⟨(pauseResume_dispatch.1 "PAUSED").mpr rfl,
   pauseResume_dispatch.2.2 MenuCommand.pauseDownload
     DownloadStatus.DOWNLOADING⟩

/-- Membership in the deduplicated list: present in the input and not
already seen. -/
theorem mem_dedupFirstAux (x : String) :
    ∀ (l seen : List String),
      x ∈ dedupFirstAux seen l ↔ x ∈ l ∧ x ∉ seen := by
  intro l
  induction l with
  | nil => intro seen; simp [dedupFirstAux]
  | cons y ys ih =>
      intro seen
      by_cases hy : y ∈ seen
      · rw [dedupFirstAux, if_pos hy, ih]
        constructor
        · rintro ⟨hmem, hns⟩
          exact ⟨List.mem_cons_of_mem _ hmem, hns⟩
        · rintro ⟨hmem, hns⟩
          rcases List.mem_cons.mp hmem with rfl | hmem
          · exact absurd hy hns
          · exact ⟨hmem, hns⟩
      · rw [dedupFirstAux, if_neg hy]
        constructor
        · intro hmem
          rcases List.mem_cons.mp hmem with rfl | hmem
          · exact ⟨List.mem_cons_self x ys, hy⟩
          · obtain ⟨hin, hns⟩ := (ih (y :: seen)).mp hmem
            exact ⟨List.mem_cons_of_mem _ hin,
              fun hx => hns (List.mem_cons_of_mem _ hx)⟩
        · rintro ⟨hmem, hns⟩
          rcases List.mem_cons.mp hmem with rfl | hmem
          · exact List.mem_cons_self x _
          · by_cases hxy : x = y
            · subst hxy; exact List.mem_cons_self x _
            · refine List.mem_cons_of_mem _
                ((ih (y :: seen)).mpr ⟨hmem, ?_⟩)
              intro hx
              rcases List.mem_cons.mp hx with h1 | h2
              · exact hxy h1
              · exact hns h2

/-- The deduplicated list has no duplicates. -/
theorem nodup_dedupFirstAux :
    ∀ (l seen : List String), (dedupFirstAux seen l).Nodup := by
  intro l
  induction l with
  | nil => intro seen; simp [dedupFirstAux]
  | cons y ys ih =>
      intro seen
      by_cases hy : y ∈ seen
      · rw [dedupFirstAux, if_pos hy]
        exact ih seen
      · rw [dedupFirstAux, if_neg hy]
        refine List.nodup_cons.mpr ⟨?_, ih _⟩
        intro hmem
        exact ((mem_dedupFirstAux y ys _).mp hmem).2 (List.mem_cons_self y seen)

/-- The deduplicated list is a sublist of its input (order preserved). -/
theorem sublist_dedupFirstAux :
    ∀ (l seen : List String), (dedupFirstAux seen l).Sublist l := by
  intro l
  induction l with
  | nil => intro seen; simp [dedupFirstAux]
  | cons y ys ih =>
      intro seen
      by_cases hy : y ∈ seen
      · rw [dedupFirstAux, if_pos hy]
        exact (ih seen).cons y
      · rw [dedupFirstAux, if_neg hy]
        exact (ih _).cons₂ y

/-- The accumulator of `dedupFirstAux` only matters up to membership. -/
theorem dedupFirstAux_congr :
    ∀ (l s₁ s₂ : List String), (∀ a, a ∈ s₁ ↔ a ∈ s₂) →
      dedupFirstAux s₁ l = dedupFirstAux s₂ l := by
  intro l
  induction l with
  | nil => intro s₁ s₂ _; rfl
  | cons y ys ih =>
      intro s₁ s₂ h
      by_cases hy : y ∈ s₁
      · rw [dedupFirstAux, if_pos hy, dedupFirstAux, if_pos ((h y).mp hy),
          ih s₁ s₂ h]
      · rw [dedupFirstAux, if_neg hy, dedupFirstAux,
          if_neg (fun hx => hy ((h y).mpr hx))]
        congr 1
        refine ih _ _ (fun a => ?_)
        simp [List.mem_cons, h a]

/-- Seeding the accumulator with `y` is the same as filtering `y` out of the
input. -/
theorem dedupFirstAux_seen_filter (y : String) :
    ∀ (l seen : List String),
      dedupFirstAux (y :: seen) l =
        dedupFirstAux seen (l.filter fun z => z ≠ y) := by
  intro l
  induction l with
  | nil => intro seen; rfl
  | cons x xs ih =>
      intro seen
      by_cases hxy : x = y
      · subst hxy
        rw [dedupFirstAux, if_pos (List.mem_cons_self x seen),
          List.filter_cons_of_neg (by simp)]
        exact ih seen
      · rw [List.filter_cons_of_pos (by simp [hxy])]
        by_cases hxs : x ∈ seen
        · rw [dedupFirstAux,
            if_pos (List.mem_cons_of_mem _ hxs), dedupFirstAux,
            if_pos hxs]
          exact ih seen
        · have hx : x ∉ y :: seen := by
            simp [List.mem_cons, hxy, hxs]
          rw [dedupFirstAux, if_neg hx, dedupFirstAux, if_neg hxs]
          congr 1
          rw [dedupFirstAux_congr xs (x :: y :: seen) (y :: x :: seen)
            (fun a => by simp [List.mem_cons]; tauto)]
          exact ih (x :: seen)

/-- `dedupFirst` keeps the head and deduplicates the tail with all later
copies of the head removed: the first occurrence of each element is the one
that is kept, at its original position. -/
theorem dedupFirst_cons (y : String) (ys : List String) :
    dedupFirst (y :: ys) =
      y :: dedupFirst (ys.filter fun z => z ≠ y) := by
  rw [dedupFirst, dedupFirstAux, if_neg (List.not_mem_nil y)]
  rw [dedupFirstAux_seen_filter y ys []]
  rfl

/-- C1: every string returned by `parseUrlsFromText` is the serialization of
a whitespace-split token of the input that the URL parser accepted with
protocol `http:` or `https:`; tokens that fail to parse or carry any other
protocol never reach the output, and the embedding is a total function. -/
theorem parseUrls_only_http (urlParse : String → Option JsUrl)
    (text s : String) (hs : s ∈ parseUrlsFromText urlParse text) :
    ∃ p, p ∈ urlTokens text ∧ ∃ u, urlParse p = some u ∧
      (u.protocol = "http:" ∨ u.protocol = "https:") ∧ s = u.href := by
  have hraw : s ∈ rawUrls urlParse text :=
    ((mem_dedupFirstAux s _ []).mp hs).1
  obtain ⟨p, hp, hkeep⟩ := List.mem_filterMap.mp hraw
  refine ⟨p, hp, ?_⟩
  cases hu : urlParse p with
  | none => simp [keepHttpUrl, hu] at hkeep
  | some u =>
      simp only [keepHttpUrl, hu] at hkeep
      by_cases hproto : u.protocol = "http:" ∨ u.protocol = "https:"
      · rw [if_pos hproto] at hkeep
        exact ⟨u, rfl, hproto, (Option.some_inj.mp hkeep).symm⟩
      · rw [if_neg hproto] at hkeep
        exact absurd hkeep (by simp)

/-- C1 witness: on the text `"http://ab x"` under the sample URL parser,
the output contains `"http://ab"`, which indeed comes from an accepted
`http:` token. -/
theorem parseUrls_only_http_witness :
    "http://ab" ∈ parseUrlsFromText urlParseModel "http://ab x" ∧
    ∃ p, p ∈ urlTokens "http://ab x" ∧ ∃ u, urlParseModel p = some u ∧
      (u.protocol = "http:" ∨ u.protocol = "https:") ∧
      "http://ab" = u.href :=
  ⟨by decide,
   parseUrls_only_http urlParseModel "http://ab x" "http://ab" (by decide)⟩

/-- C9: the URL list returned by `parseUrlsFromText` has no duplicates, is
an order-preserving sublist of the pre-deduplication list, contains exactly
the same URLs, and the deduplication keeps the first occurrence of each
element (head first, later copies filtered out of the tail). -/
theorem parseUrls_nodup (urlParse : String → Option JsUrl) (text : String) :
    (parseUrlsFromText urlParse text).Nodup ∧
    (parseUrlsFromText urlParse text).Sublist (rawUrls urlParse text) ∧
    (∀ s, s ∈ parseUrlsFromText urlParse text ↔
      s ∈ rawUrls urlParse text) ∧
    (∀ (y : String) (ys : List String),
      dedupFirst (y :: ys) =
        y :: dedupFirst (ys.filter fun z => z ≠ y)) := by
  refine ⟨nodup_dedupFirstAux _ [], sublist_dedupFirstAux _ [], ?_,
    dedupFirst_cons⟩
  intro s
  rw [parseUrlsFromText, dedupFirst, mem_dedupFirstAux]
  simp

/-- C9 witness: a text repeating the same URL three times yields it exactly
once, and the output list is duplicate-free. -/
theorem parseUrls_nodup_witness :
    parseUrlsFromText urlParseModel "http://ab http://ab http://ab" =
      ["http://ab"] ∧
    (parseUrlsFromText urlParseModel "http://ab http://ab http://ab").Nodup ∧
    ("http://ab" ∈
        parseUrlsFromText urlParseModel "http://ab http://ab http://ab" ↔
      "http://ab" ∈
        rawUrls urlParseModel "http://ab http://ab http://ab") :=
  ⟨by decide,
   (parseUrls_nodup urlParseModel "http://ab http://ab http://ab").1,
   (parseUrls_nodup urlParseModel "http://ab http://ab http://ab").2.2.1
     "http://ab"⟩

/-- The merge loop leaves, for each key, the last matching update of the
batch, and falls back to the previous entry. -/
theorem foldl_applyBatchUpdate (batch : List DownloadProgressUpdate) :
    ∀ (m : ProgressMap) (id : String),
      (batch.foldl applyBatchUpdate m) id =
        match lastUpdateFor batch id with
        | some u => some u
        | none => m id := by
  induction batch using List.reverseRecOn with
  | nil => intro m id; simp [lastUpdateFor]
  | append_singleton us u ih =>
      intro m id
      rw [List.foldl_append, List.foldl_cons, List.foldl_nil]
      show (if id = u.id then some u
        else List.foldl applyBatchUpdate m us id) = _
      unfold lastUpdateFor
      by_cases hid : id = u.id
      · rw [if_pos hid,
          List.filter_append,
          List.filter_cons_of_pos (by simp [hid]), List.filter_nil,
          List.getLast?_concat]
      · rw [if_neg hid, ih m id,
          List.filter_append,
          List.filter_cons_of_neg (by simp; exact fun h => hid h.symm),
          List.filter_nil, List.append_nil]
        rfl

/-- C5: the UI subscribes to exactly the two channels `ProgressBatch` and
`DownloadsChanged`; a `ProgressBatch` event merges the payload into the
progress map keyed by id (last update for an id wins, other ids unchanged,
an empty batch changes nothing, the download list is untouched), and a
`DownloadsChanged` event replaces the download list with the freshly
fetched store contents. -/
theorem event_handling :
    subscribedEvents = ["zdmr://progress_batch", "zdmr://downloads_changed"] ∧
    (∀ st : UiState, handleProgressBatch [] st = st) ∧
    (∀ (batch : List DownloadProgressUpdate) (st : UiState),
      (handleProgressBatch batch st).downloads = st.downloads) ∧
    (∀ (batch : List DownloadProgressUpdate) (st : UiState) (id : String),
      (handleProgressBatch batch st).progressById id =
        match lastUpdateFor batch id with
        | some u => some u
        | none => st.progressById id) ∧
    (∀ (store : List DownloadRecord) (st : UiState),
      (refreshDownloadsState store st).downloads = store) := by
  refine ⟨rfl, ?_, ?_, ?_, fun store st => rfl⟩
  · intro st
    simp [handleProgressBatch]
  · intro batch st
    unfold handleProgressBatch
    split <;> rfl
  · intro batch st id
    unfold handleProgressBatch
    by_cases hb : batch.length = 0
    · rw [if_pos hb]
      rw [List.length_eq_zero.mp hb]
      simp [lastUpdateFor]
    · rw [if_neg hb]
      exact foldl_applyBatchUpdate batch st.progressById id

/-- The pruned progress map holds an entry for `id` exactly when the stored
list has an active download with that id, in which case the previous entry
survives. -/
theorem pruneProgress_eq (list : List DownloadRecord) (prev : ProgressMap)
    (id : String) :
    pruneProgress list prev id =
      if id ∈ (list.filter fun d =>
          d.status = DownloadStatus.DOWNLOADING ∨
          d.status = DownloadStatus.QUEUED).map (fun d => d.id)
      then prev id else none := rfl

/-- C4: after a refresh the progress map retains entries only for downloads
whose store status is `DOWNLOADING` or `QUEUED`; for a download whose store
status is `COMPLETED`, `PAUSED` or `ERROR` (with ids unique in the list)
the entry is dropped, so the row's displayed status is the store status and
a stale `DOWNLOADING` progress update cannot override it. -/
theorem refresh_prunes_stale_progress :
    (∀ (list : List DownloadRecord) (prev : ProgressMap) (id : String),
      (pruneProgress list prev id).isSome = true →
      ∃ d, d ∈ list ∧ d.id = id ∧
        (d.status = DownloadStatus.DOWNLOADING ∨
         d.status = DownloadStatus.QUEUED)) ∧
    (∀ (list : List DownloadRecord) (prev : ProgressMap)
        (d : DownloadRecord),
      (list.map fun d => d.id).Nodup → d ∈ list →
      (d.status = DownloadStatus.COMPLETED ∨
       d.status = DownloadStatus.PAUSED ∨
       d.status = DownloadStatus.ERROR) →
      pruneProgress list prev d.id = none ∧
      rowStatus d (pruneProgress list prev d.id) = d.status) := by
  constructor
  · intro list prev id h
    rw [pruneProgress_eq] at h
    by_cases hin : id ∈ (list.filter fun d =>
        d.status = DownloadStatus.DOWNLOADING ∨
        d.status = DownloadStatus.QUEUED).map (fun d => d.id)
    · obtain ⟨d, hd, hdi⟩ := List.mem_map.mp hin
      obtain ⟨hmem, hact⟩ := List.mem_filter.mp hd
      exact ⟨d, hmem, hdi, by simpa using hact⟩
    · rw [if_neg hin] at h
      simp at h
  · intro list prev d hnodup hmem hst
    have hnotin : d.id ∉ (list.filter fun d =>
        d.status = DownloadStatus.DOWNLOADING ∨
        d.status = DownloadStatus.QUEUED).map (fun d => d.id) := by
      intro hin
      obtain ⟨d', hd', hdi⟩ := List.mem_map.mp hin
      obtain ⟨hmem', hact⟩ := List.mem_filter.mp hd'
      have hde : d' = d :=
        List.inj_on_of_nodup_map hnodup hmem' hmem hdi
      subst hde
      have hact' : d'.status = DownloadStatus.DOWNLOADING ∨
          d'.status = DownloadStatus.QUEUED := by simpa using hact
      rcases hst with h | h | h <;> rcases hact' with h' | h' <;>
        rw [h] at h' <;> exact absurd h' (by simp)
    have hnone : pruneProgress list prev d.id = none := by
      rw [pruneProgress_eq, if_neg hnotin]
    exact ⟨hnone, by rw [hnone]; rfl⟩

/-- C4 witness: a one-element list holding a completed download with a stale
`DOWNLOADING` progress entry: after pruning, the entry is gone and the row
shows `COMPLETED`. -/
theorem refresh_prunes_stale_progress_witness :
    ([exampleCompleted].map fun d => d.id).Nodup ∧
    exampleCompleted ∈ [exampleCompleted] ∧
    (exampleCompleted.status = DownloadStatus.COMPLETED ∨
     exampleCompleted.status = DownloadStatus.PAUSED ∨
     exampleCompleted.status = DownloadStatus.ERROR) ∧
    (pruneProgress [exampleCompleted] exampleStaleMap
        exampleCompleted.id = none ∧
      rowStatus exampleCompleted
          (pruneProgress [exampleCompleted] exampleStaleMap
            exampleCompleted.id) =
        exampleCompleted.status) :=
  ⟨by decide, by decide, by decide,
   refresh_prunes_stale_progress.2 [exampleCompleted] exampleStaleMap
     exampleCompleted (by decide) (by decide) (by decide)⟩

/-- C10: the progress fraction a row computes is always within `[0, 1]` and
the bar width within `[0, 100]`: a missing or non-positive total gives `0`,
and a byte count at or above a known positive total is clamped to `1`. -/
theorem progress_fraction_clamped :
    (∀ (b : Int) (t : Option Int), 0 ≤ pctOf b t ∧ pctOf b t ≤ 1) ∧
    (∀ b : Int, pctOf b none = 0) ∧
    (∀ b t : Int, t ≤ 0 → pctOf b (some t) = 0) ∧
    (∀ b t : Int, 0 < t → t ≤ b → pctOf b (some t) = 1) ∧
    (∀ q : ℚ, 0 ≤ pct100 q ∧ pct100 q ≤ 100) ∧
    (∀ (d : DownloadRecord) (p : Option DownloadProgressUpdate),
      0 ≤ rowPct d p ∧ rowPct d p ≤ 1) := by
  have hbounds : ∀ (b : Int) (t : Option Int),
      0 ≤ pctOf b t ∧ pctOf b t ≤ 1 := by
    intro b t
    cases t with
    | none => simp [pctOf]
    | some t =>
        by_cases ht : 0 < t
        · simp only [pctOf, if_pos ht]
          refine ⟨le_min (by norm_num) (le_max_left 0 _), min_le_left 1 _⟩
        · simp [pctOf, ht]
  refine ⟨hbounds, fun b => rfl, ?_, ?_, ?_, ?_⟩
  · intro b t ht
    simp [pctOf, not_lt.mpr ht]
  · intro b t ht hbt
    have htq : (0 : ℚ) < (t : ℚ) := by exact_mod_cast ht
    have hx : (1 : ℚ) ≤ (b : ℚ) / (t : ℚ) := by
      rw [le_div_iff₀ htq, one_mul]
      exact_mod_cast hbt
    have hmax : max 0 ((b : ℚ) / (t : ℚ)) = (b : ℚ) / (t : ℚ) :=
      max_eq_right (le_trans zero_le_one hx)
    simp only [pctOf, if_pos ht, hmax]
    exact min_eq_left hx
  · intro q
    exact ⟨le_max_left 0 _, max_le (by norm_num) (min_le_left 100 _)⟩
  · intro d p
    exact hbounds (rowBytes d p) (rowTotal d p)

/-- C10 witness: with 5 bytes downloaded of a 3-byte total, the fraction is
clamped to exactly 1, and with an unknown total it is 0. -/
theorem progress_fraction_clamped_witness :
    (0 : Int) < 3 ∧ (3 : Int) ≤ 5 ∧ pctOf 5 (some 3) = 1 ∧
    pctOf 7 none = 0 ∧ (-2 : Int) ≤ 0 ∧ pctOf 7 (some (-2)) = 0 :=
  ⟨by decide, by decide,
   progress_fraction_clamped.2.2.2.1 5 3 (by decide) (by decide),
   progress_fraction_clamped.2.1 7,
   by decide,
   progress_fraction_clamped.2.2.1 7 (-2) (by decide)⟩

end ZDMR
